import Mathlib

/-!
Verification of the in-memory notes store (`notesStorage.js`) and the
zod-based request validator of the WT-AC-2025 notes service.

The store is a module-level array of notes plus an id counter; every
operation is embedded as an explicit state-passing function
`State → Result × State`.  JavaScript library behaviour that the code
relies on (`Array.prototype.slice`, `String.prototype.includes`,
`parseInt(x) || d` coercion) is modelled faithfully, negative-index
semantics included.
-/

/-- A stored note, mirroring the object literals built in `create`. -/
structure Note where
  id : Nat
  title : String
  content : String
  tags : List String
  dueDate : Option String
  isArchived : Bool
  isDone : Bool
  createdAt : String
  updatedAt : String
deriving Repr, DecidableEq

/-- Module state of `notesStorage.js`: the `notes` array and `currentId`. -/
structure State where
  notes : List Note
  currentId : Nat
deriving Repr, DecidableEq

/-- Fresh module state: empty collection, counter at 1. -/
def initialState : State := ⟨[], 1⟩

/-- `l1` is a leading segment of `l2` (JS `String.prototype.startsWith` on
spread-out characters). -/
def startsWithList [DecidableEq α] : List α → List α → Bool
  | [], _ => true
  | _ :: _, [] => false
  | a :: as, b :: bs => a = b && startsWithList as bs

/-- `nd` occurs contiguously inside `hay`. -/
def hasInfixList [DecidableEq α] : List α → List α → Bool
  | nd, [] => nd.isEmpty
  | nd, h :: t => startsWithList nd (h :: t) || hasInfixList nd t

/-- JS `hay.includes(needle)` for strings. -/
def jsIncludes (hay needle : String) : Bool :=
  hasInfixList needle.toList hay.toList

/-- JS `s.toLowerCase()`: lowercase character by character. -/
def strToLower (s : String) : String :=
  String.mk (s.toList.map Char.toLower)

/-- ECMAScript `Array.prototype.slice(start, stop)`: negative indices count
from the end of the array, out-of-range indices are clamped. -/
def jsSlice (l : List α) (start stop : Int) : List α :=
  let len : Int := l.length
  let s := if start < 0 then max (len + start) 0 else min start len
  let e := if stop < 0 then max (len + stop) 0 else min stop len
  (l.drop s.toNat).take (e - s).toNat

/-- Result of applying JS `parseInt` to a pagination input: either an
integer or `NaN` (non-numeric input, or the input was absent). -/
inductive JsIntInput where
  | num (n : Int)
  | nan
deriving Repr, DecidableEq

/-- JS `parseInt(x) || d`: `NaN` and `0` are falsy and fall back to `d`. -/
def parsedOr (x : Option JsIntInput) (d : Int) : Int :=
  match x with
  | some (.num n) => if n = 0 then d else n
  | _ => d

/-- The filter/pagination argument of `getAll`.  `none` means the key is
absent from the query. -/
structure Filters where
  q : Option String
  tags : Option (List String)
  isArchived : Option Bool
  isDone : Option Bool
  limit : Option JsIntInput
  offset : Option JsIntInput
deriving Repr, DecidableEq

/-- A `Filters` value with every key absent. -/
def noFilters : Filters := ⟨none, none, none, none, none, none⟩

/-- The object returned by `getAll`. -/
structure GetAllResult where
  notes : List Note
  total : Nat
  limit : Int
  offset : Int
  hasMore : Bool
deriving Repr, DecidableEq

/-- The four sequential `filter` passes of `getAll` (lines 12–35 of
`notesStorage.js`).  `filters.q` is guarded by JS truthiness (the empty
string is falsy) and `filters.tags` by `tags && tags.length > 0`. -/
def applyFilters (filters : Filters) (notes : List Note) : List Note :=
  let fn1 :=
    match filters.q with
    | some q =>
        if q = "" then notes
        else
          notes.filter fun note =>
            jsIncludes (strToLower note.title) (strToLower q) ||
              jsIncludes (strToLower note.content) (strToLower q)
    | none => notes
  let fn2 :=
    match filters.tags with
    | some ts =>
        if 0 < ts.length then
          fn1.filter fun note => ts.any fun tag => note.tags.contains tag
        else fn1
    | none => fn1
  let fn3 :=
    match filters.isArchived with
    | some b => fn2.filter fun note => note.isArchived == b
    | none => fn2
  let fn4 :=
    match filters.isDone with
    | some b => fn3.filter fun note => note.isDone == b
    | none => fn3
  fn4

/-- `notesStorage.getAll`: filter, then paginate with
`limit = parseInt(filters.limit) || 10`, `offset = parseInt(filters.offset) || 0`,
`slice(offset, offset + limit)` and `hasMore = offset + limit < total`.
The function only reads the module state, so it returns it unchanged. -/
def getAll (filters : Filters) (s : State) : GetAllResult × State :=
  let filteredNotes := applyFilters filters s.notes
  let limit := parsedOr filters.limit 10
  let offset := parsedOr filters.offset 0
  let total := filteredNotes.length
  let paginatedNotes := jsSlice filteredNotes offset (offset + limit)
  (⟨paginatedNotes, total, limit, offset, decide (offset + limit < (total : Int))⟩, s)

/-- `notesStorage.getById`: first note whose `id` matches, if any. -/
def getById (id : Nat) (s : State) : Option Note :=
  s.notes.find? fun note => note.id == id

/-- A payload already normalized by the create schema: exactly the fields
`title`, `content`, `tags` (defaulted) and `dueDate`. -/
structure CreatePayload where
  title : String
  content : String
  tags : List String
  dueDate : Option String
deriving Repr, DecidableEq

/-- `notesStorage.create`: builds the new note from the next counter value
and the payload, forces `isArchived`/`isDone` to `false` (they are spread
after the payload), stamps both timestamps with the current time `now`,
pushes the note and increments the counter. -/
def create (noteData : CreatePayload) (now : String) (s : State) : Note × State :=
  let newNote : Note :=
    { id := s.currentId
      title := noteData.title
      content := noteData.content
      tags := noteData.tags
      dueDate := noteData.dueDate
      isArchived := false
      isDone := false
      createdAt := now
      updatedAt := now }
  (newNote, ⟨s.notes ++ [newNote], s.currentId + 1⟩)

/-- A payload already normalized by the update schema: every field
optional, plus the two status flags. -/
structure UpdatePayload where
  title : Option String
  content : Option String
  tags : Option (List String)
  dueDate : Option (Option String)
  isArchived : Option Bool
  isDone : Option Bool
deriving Repr, DecidableEq

/-- An `UpdatePayload` naming no field at all. -/
def emptyUpdate : UpdatePayload := ⟨none, none, none, none, none, none⟩

/-- The spread `{...old, ...updateData, updatedAt: now}` of
`notesStorage.update`: payload fields win where present, `updatedAt` is
always overwritten, and `id`/`createdAt` cannot occur in a normalized
payload so they survive. -/
def mergeNote (old : Note) (u : UpdatePayload) (now : String) : Note :=
  { id := old.id
    title := u.title.getD old.title
    content := u.content.getD old.content
    tags := u.tags.getD old.tags
    dueDate := u.dueDate.getD old.dueDate
    isArchived := u.isArchived.getD old.isArchived
    isDone := u.isDone.getD old.isDone
    createdAt := old.createdAt
    updatedAt := now }

/-- `findIndex` + in-place write of `notesStorage.update`, fused: replace
the first note whose `id` matches and return it, or return `none` leaving
the list untouched. -/
def updateList (id : Nat) (u : UpdatePayload) (now : String) :
    List Note → Option Note × List Note
  | [] => (none, [])
  | n :: rest =>
      if n.id == id then
        let merged := mergeNote n u now
        (some merged, merged :: rest)
      else
        let r := updateList id u now rest
        (r.1, n :: r.2)

/-- `notesStorage.update`: `null` (here `none`) for a missing id, else the
shallow-merged note written back at the same index. -/
def update (id : Nat) (u : UpdatePayload) (now : String) (s : State) :
    Option Note × State :=
  let r := updateList id u now s.notes
  (r.1, ⟨r.2, s.currentId⟩)

/-- `findIndex` + `splice(i, 1)` of `notesStorage.delete`, fused: remove
the first note whose `id` matches. -/
def deleteList (id : Nat) : List Note → Bool × List Note
  | [] => (false, [])
  | n :: rest =>
      if n.id == id then (true, rest)
      else
        let r := deleteList id rest
        (r.1, n :: r.2)

/-- `notesStorage.delete`: `true` and removal when the id exists, `false`
and no change otherwise. -/
def deleteOp (id : Nat) (s : State) : Bool × State :=
  let r := deleteList id s.notes
  (r.1, ⟨r.2, s.currentId⟩)

/-- `notesStorage.archive`: guard with `getById`, then delegate to
`update(id, { isArchived: true })`. -/
def archive (id : Nat) (now : String) (s : State) : Option Note × State :=
  match getById id s with
  | none => (none, s)
  | some _ => update id { emptyUpdate with isArchived := some true } now s

/-- `notesStorage.unarchive`. -/
def unarchive (id : Nat) (now : String) (s : State) : Option Note × State :=
  match getById id s with
  | none => (none, s)
  | some _ => update id { emptyUpdate with isArchived := some false } now s

/-- `notesStorage.markAsDone`. -/
def markAsDone (id : Nat) (now : String) (s : State) : Option Note × State :=
  match getById id s with
  | none => (none, s)
  | some _ => update id { emptyUpdate with isDone := some true } now s

/-- `notesStorage.markAsUndone`. -/
def markAsUndone (id : Nat) (now : String) (s : State) : Option Note × State :=
  match getById id s with
  | none => (none, s)
  | some _ => update id { emptyUpdate with isDone := some false } now s

/-- One invocation of a store operation, with the wall-clock string the
operation would read where relevant. -/
inductive Op where
  | opCreate (p : CreatePayload) (now : String)
  | opUpdate (id : Nat) (u : UpdatePayload) (now : String)
  | opDelete (id : Nat)
  | opGetAll (f : Filters)
  | opGetById (id : Nat)
  | opArchive (id : Nat) (now : String)
  | opUnarchive (id : Nat) (now : String)
  | opMarkAsDone (id : Nat) (now : String)
  | opMarkAsUndone (id : Nat) (now : String)
deriving Repr

/-- State transition of a single operation. -/
def applyOp (s : State) : Op → State
  | .opCreate p now => (create p now s).2
  | .opUpdate id u now => (update id u now s).2
  | .opDelete id => (deleteOp id s).2
  | .opGetAll f => (getAll f s).2
  | .opGetById _ => s
  | .opArchive id now => (archive id now s).2
  | .opUnarchive id now => (unarchive id now s).2
  | .opMarkAsDone id now => (markAsDone id now s).2
  | .opMarkAsUndone id now => (markAsUndone id now s).2

/-- Run a sequence of operations from `s`. -/
def runOps (s : State) : List Op → State
  | [] => s
  | op :: rest => runOps (applyOp s op) rest

/-- The ids handed out by `create` (via `generateId`) along a run, in the
order they are assigned. -/
def assignedIds (s : State) : List Op → List Nat
  | [] => []
  | op :: rest =>
      match op with
      | .opCreate _ _ => s.currentId :: assignedIds (applyOp s op) rest
      | _ => assignedIds (applyOp s op) rest

/-! ### Validator model

`src/unnamed/part_000` declares two zod schemas and a `validate` wrapper
that calls `schema.parse` and, on failure, responds with the full
`error.errors` list.  zod's object parser evaluates every declared key,
collecting all issues; for arrays the `max` check precedes the per-element
checks; string `min`/`max` checks are both run.  That library behaviour is
embedded below for exactly the two schemas of the source. -/

/-- An untyped JSON request body. -/
inductive Json where
  | str (s : String)
  | num (n : Int)
  | bool (b : Bool)
  | null
  | arr (xs : List Json)
  | obj (fields : List (String × Json))

/-- One entry of zod's `error.errors`: the path of the failing field and
the code of the rule it broke. -/
structure Issue where
  path : List String
  code : String
deriving Repr, DecidableEq

/-- Look up a key in a JSON object (`undefined` when absent). -/
def lookupField (fields : List (String × Json)) (k : String) : Option Json :=
  (fields.find? fun p => p.1 = k).map fun p => p.2

/-- Issues of `z.string().min(lo).max(hi)` at path `path` for a present
value `v`. -/
def strIssues (path : List String) (lo hi : Nat) (v : Json) : List Issue :=
  match v with
  | .str s =>
      (if s.length < lo then [⟨path, "too_small"⟩] else []) ++
        (if hi < s.length then [⟨path, "too_big"⟩] else [])
  | _ => [⟨path, "invalid_type"⟩]

/-- Issues of a required string field: absence is an `invalid_type`
(`Required`) issue, as zod reports for a missing key. -/
def requiredStrIssues (o : List (String × Json)) (k : String) (lo hi : Nat) :
    List Issue :=
  match lookupField o k with
  | none => [⟨[k], "invalid_type"⟩]
  | some v => strIssues [k] lo hi v

/-- Issues of an optional string field. -/
def optionalStrIssues (o : List (String × Json)) (k : String) (lo hi : Nat) :
    List Issue :=
  match lookupField o k with
  | none => []
  | some v => strIssues [k] lo hi v

/-- Issues of one element of `z.array(z.string().min(1).max(20))`. -/
def tagElemIssues (i : Nat) (v : Json) : List Issue :=
  strIssues ["tags", toString i] 1 20 v

/-- Collect the element issues of the tags array. -/
def tagListIssues (i : Nat) : List Json → List Issue
  | [] => []
  | v :: rest => tagElemIssues i v ++ tagListIssues (i + 1) rest

/-- Issues of `tags: z.array(z.string().min(1).max(20)).max(10).optional()`:
the array-level `max(10)` issue first, then the element issues, exactly as
zod orders them. -/
def tagsIssues (o : List (String × Json)) : List Issue :=
  match lookupField o "tags" with
  | none => []
  | some (.arr xs) =>
      (if 10 < xs.length then [⟨["tags"], "too_big"⟩] else []) ++
        tagListIssues 0 xs
  | some _ => [⟨["tags"], "invalid_type"⟩]

/-- Membership of zod's default `datetime()` grammar
`^\d{4}-\d{2}-\d{2}T\d{2}:\d{2}:\d{2}(\.\d+)?Z$`: consume a fixed run of
digits. -/
def digitsN : Nat → List Char → Option (List Char)
  | 0, rest => some rest
  | n + 1, c :: rest => if c.isDigit then digitsN n rest else none
  | _ + 1, [] => none

/-- Consume one expected character. -/
def expectChar (c : Char) : List Char → Option (List Char)
  | x :: rest => if x = c then some rest else none
  | [] => none

/-- The optional fractional-seconds part followed by the final `Z`. -/
def fracThenZ (cs : List Char) : Bool :=
  match cs with
  | ['Z'] => true
  | '.' :: rest =>
      (rest.takeWhile fun c => c.isDigit) ≠ [] &&
        (rest.dropWhile fun c => c.isDigit) = ['Z']
  | _ => false

/-- zod `z.string().datetime()` acceptance. -/
def isIsoDatetime (s : String) : Bool :=
  let afterDate :=
    (digitsN 4 s.toList).bind fun r =>
      (expectChar '-' r).bind fun r =>
        (digitsN 2 r).bind fun r =>
          (expectChar '-' r).bind fun r =>
            (digitsN 2 r).bind fun r =>
              (expectChar 'T' r).bind fun r =>
                (digitsN 2 r).bind fun r =>
                  (expectChar ':' r).bind fun r =>
                    (digitsN 2 r).bind fun r =>
                      (expectChar ':' r).bind fun r => digitsN 2 r
  match afterDate with
  | some rest => fracThenZ rest
  | none => false

/-- Issues of `dueDate: z.string().datetime().optional().nullable()`. -/
def dueDateIssues (o : List (String × Json)) : List Issue :=
  match lookupField o "dueDate" with
  | none => []
  | some .null => []
  | some (.str s) => if isIsoDatetime s then [] else [⟨["dueDate"], "invalid_string"⟩]
  | some _ => [⟨["dueDate"], "invalid_type"⟩]

/-- Issues of an optional boolean field (`isArchived`, `isDone`). -/
def boolIssues (o : List (String × Json)) (k : String) : List Issue :=
  match lookupField o k with
  | none => []
  | some (.bool _) => []
  | some _ => [⟨[k], "invalid_type"⟩]

/-- All issues of `noteCreateSchema` on an object body, in zod's key
order: `title`, `content`, `tags`, `dueDate`. -/
def createIssues (o : List (String × Json)) : List Issue :=
  requiredStrIssues o "title" 1 100 ++
    requiredStrIssues o "content" 1 1000 ++
      tagsIssues o ++ dueDateIssues o

/-- All issues of `noteUpdateSchema` on an object body, in zod's key
order: `title`, `content`, `tags`, `dueDate`, `isArchived`, `isDone`. -/
def updateIssues (o : List (String × Json)) : List Issue :=
  optionalStrIssues o "title" 1 100 ++
    optionalStrIssues o "content" 1 1000 ++
      tagsIssues o ++ dueDateIssues o ++
        boolIssues o "isArchived" ++ boolIssues o "isDone"

/-- Read back a validated string field. -/
def extractStr (o : List (String × Json)) (k : String) : Option String :=
  match lookupField o k with
  | some (.str s) => some s
  | _ => none

/-- Read back the validated tags array. -/
def extractTags (o : List (String × Json)) : Option (List String) :=
  match lookupField o "tags" with
  | some (.arr xs) =>
      some (xs.filterMap fun v => match v with | .str s => some s | _ => none)
  | _ => none

/-- Read back the validated dueDate (absent and `null` both collapse to
`none`). -/
def extractDueDate (o : List (String × Json)) : Option String :=
  match lookupField o "dueDate" with
  | some (.str s) => some s
  | _ => none

/-- `noteCreateSchema.parse`: the full issue list on failure, the
normalized payload (unknown keys stripped, `tags` defaulted to `[]`) on
success. -/
def parseCreateJson (j : Json) : Except (List Issue) CreatePayload :=
  match j with
  | .obj o =>
      let issues := createIssues o
      if issues = [] then
        .ok
          { title := (extractStr o "title").getD ""
            content := (extractStr o "content").getD ""
            tags := (extractTags o).getD []
            dueDate := extractDueDate o }
      else .error issues
  | _ => .error [⟨[], "invalid_type"⟩]

/-- Read back a validated boolean field. -/
def extractBool (o : List (String × Json)) (k : String) : Option Bool :=
  match lookupField o k with
  | some (.bool b) => some b
  | _ => none

/-- Read back the validated dueDate for the update schema, keeping the
absent/null distinction. -/
def extractDueDateU (o : List (String × Json)) : Option (Option String) :=
  match lookupField o "dueDate" with
  | none => none
  | some (.str s) => some (some s)
  | some _ => some none

/-- `noteUpdateSchema.parse`. -/
def parseUpdateJson (j : Json) : Except (List Issue) UpdatePayload :=
  match j with
  | .obj o =>
      let issues := updateIssues o
      if issues = [] then
        .ok
          { title := extractStr o "title"
            content := extractStr o "content"
            tags := extractTags o
            dueDate := extractDueDateU o
            isArchived := extractBool o "isArchived"
            isDone := extractBool o "isDone" }
      else .error issues
  | _ => .error [⟨[], "invalid_type"⟩]

/-! ### Spec-side filter predicates -/

/-- Spec wording for the `q` filter: the lowercased query is a substring
of the lowercased title or of the lowercased content. -/
def qMatches (q : String) (note : Note) : Bool :=
  jsIncludes (strToLower note.title) (strToLower q) ||
    jsIncludes (strToLower note.content) (strToLower q)

/-- Spec wording for the `tags` filter: the note shares at least one tag
with the filter's tag sequence. -/
def tagsMatch (ts : List String) (note : Note) : Bool :=
  ts.any fun tag => note.tags.contains tag

/-- The claim's literal per-note predicate: every *present* filter passes,
the tags filter passing only when a tag is shared. -/
def matchesFiltersSpec (f : Filters) (note : Note) : Bool :=
  (match f.q with | some q => qMatches q note | none => true) &&
    (match f.tags with | some ts => tagsMatch ts note | none => true) &&
      (match f.isArchived with | some b => note.isArchived == b | none => true) &&
        (match f.isDone with | some b => note.isDone == b | none => true)

/-- The amended per-note predicate: identical except that a present but
*empty* tags filter passes every note (the code skips it). -/
def matchesFilters (f : Filters) (note : Note) : Bool :=
  (match f.q with | some q => qMatches q note | none => true) &&
    (match f.tags with
      | some ts => ts.isEmpty || tagsMatch ts note
      | none => true) &&
      (match f.isArchived with | some b => note.isArchived == b | none => true) &&
        (match f.isDone with | some b => note.isDone == b | none => true)

/-! ### Shared lemmas -/

/-- Sample data used by concrete instances below. -/
def sampleNote : Note := ⟨1, "a", "b", ["work"], none, false, false, "t", "t"⟩

/-- A one-note store whose counter has already moved past the note's id. -/
def sampleState : State := ⟨[sampleNote], 2⟩

lemma hasInfixList_nil_left (l : List Char) : hasInfixList ([] : List Char) l = true := by
  cases l <;> simp [hasInfixList, startsWithList]

lemma jsIncludes_empty_needle (hay : String) : jsIncludes hay "" = true := by
  have h : ("" : String).toList = [] := rfl
  simp [jsIncludes, h, hasInfixList_nil_left]

lemma strToLower_empty : strToLower "" = "" := rfl

/-- The four sequential filter passes of `getAll` compute exactly one
filter by the conjunction of the per-filter predicates. -/
theorem applyFilters_eq_filter (f : Filters) (ns : List Note) :
    applyFilters f ns = ns.filter fun n => matchesFilters f n := by
  obtain ⟨q, ts, ia, idn, lim, off⟩ := f
  simp only [applyFilters, matchesFilters]
  rcases q with _ | q
  all_goals try rcases eq_or_ne q "" with rfl | hq
  all_goals rcases ts with _ | ts
  all_goals try rcases ts with _ | ⟨t0, ts⟩
  all_goals rcases ia with _ | ia
  all_goals rcases idn with _ | idn
  all_goals try simp only [if_neg hq]
  all_goals simp [qMatches, tagsMatch, strToLower_empty, jsIncludes_empty_needle,
    List.filter_filter, Bool.and_comm, Bool.and_left_comm, Bool.and_assoc]

/-- Full characterisation of `updateList`: on a miss it leaves the list
alone, on a hit it rewrites exactly the first matching note in place. -/
lemma updateList_spec (id : Nat) (u : UpdatePayload) (now : String) (ns : List Note) :
    (ns.find? (fun n => n.id == id) = none → updateList id u now ns = (none, ns)) ∧
    ∀ old, ns.find? (fun n => n.id == id) = some old →
      ∃ pre post, ns = pre ++ old :: post ∧ (∀ m ∈ pre, m.id ≠ id) ∧
        updateList id u now ns = (some (mergeNote old u now), pre ++ mergeNote old u now :: post) := by
  induction ns with
  | nil => exact ⟨fun _ => rfl, fun old h => by simp at h⟩
  | cons n rest ih =>
    by_cases hn : n.id = id
    · have hp : (n.id == id) = true := by simpa using hn
      have hfind := @List.find?_cons_of_pos _ (fun m : Note => m.id == id) n rest hp
      constructor
      · intro h
        rw [hfind] at h
        exact absurd h (by simp)
      · intro old h
        rw [hfind] at h
        obtain rfl : n = old := by injection h
        exact ⟨[], rest, rfl, by simp, by simp [updateList, hp]⟩
    · have hp : ¬((n.id == id) = true) := by simpa using hn
      have hfind := @List.find?_cons_of_neg _ (fun m : Note => m.id == id) n rest hp
      have hp2 : (n.id == id) = false := by simpa using hn
      obtain ⟨ih1, ih2⟩ := ih
      constructor
      · intro h
        rw [hfind] at h
        simp [updateList, hp2, ih1 h]
      · intro old h
        rw [hfind] at h
        obtain ⟨pre, post, hsplit, hpre, hupd⟩ := ih2 old h
        refine ⟨n :: pre, post, by rw [hsplit]; rfl, ?_, by simp [updateList, hp2, hupd]⟩
        intro m hm
        rcases List.mem_cons.1 hm with rfl | hm
        · exact hn
        · exact hpre m hm

/-- A missing id leaves `update` a no-op returning `null`. -/
lemma update_not_found (id : Nat) (u : UpdatePayload) (now : String) (s : State)
    (h : getById id s = none) : update id u now s = (none, s) := by
  have h2 := (updateList_spec id u now s.notes).1 h
  simp [update, h2]

/-- The existence guard of the four toggles is redundant: guarding
`update` with `getById` computes the same pair as the bare `update`. -/
lemma guarded_update_eq (id : Nat) (u : UpdatePayload) (now : String) (s : State) :
    (match getById id s with
      | none => ((none : Option Note), s)
      | some _ => update id u now s) = update id u now s := by
  cases h : getById id s with
  | none => exact (update_not_found id u now s h).symm
  | some _ => rfl

/-- Field-level frame condition of the shallow merge: only the fields
named in the payload change, plus `updatedAt`; `id` and `createdAt`
survive unconditionally. -/
def updateFrame (old : Note) (u : UpdatePayload) (now : String) : Prop :=
  (mergeNote old u now).id = old.id ∧
  (mergeNote old u now).createdAt = old.createdAt ∧
  (mergeNote old u now).updatedAt = now ∧
  (u.title = none → (mergeNote old u now).title = old.title) ∧
  (∀ v, u.title = some v → (mergeNote old u now).title = v) ∧
  (u.content = none → (mergeNote old u now).content = old.content) ∧
  (∀ v, u.content = some v → (mergeNote old u now).content = v) ∧
  (u.tags = none → (mergeNote old u now).tags = old.tags) ∧
  (∀ v, u.tags = some v → (mergeNote old u now).tags = v) ∧
  (u.dueDate = none → (mergeNote old u now).dueDate = old.dueDate) ∧
  (∀ v, u.dueDate = some v → (mergeNote old u now).dueDate = v) ∧
  (u.isArchived = none → (mergeNote old u now).isArchived = old.isArchived) ∧
  (∀ v, u.isArchived = some v → (mergeNote old u now).isArchived = v) ∧
  (u.isDone = none → (mergeNote old u now).isDone = old.isDone) ∧
  (∀ v, u.isDone = some v → (mergeNote old u now).isDone = v)

lemma updateFrame_holds (old : Note) (u : UpdatePayload) (now : String) :
    updateFrame old u now := by
  unfold updateFrame
  refine ⟨rfl, rfl, rfl, ?_, ?_, ?_, ?_, ?_, ?_, ?_, ?_, ?_, ?_, ?_, ?_⟩ <;>
    first
      | (intro h; simp [mergeNote, h])
      | (intro v h; simp [mergeNote, h])

/-- Every note in the output of `updateList` carries the id of some note
of the input: an update never invents ids. -/
lemma mem_updateList_id (id : Nat) (u : UpdatePayload) (now : String) :
    ∀ (ns : List Note), ∀ m ∈ (updateList id u now ns).2, ∃ m' ∈ ns, m.id = m'.id := by
  intro ns
  induction ns with
  | nil => intro m hm; simp [updateList] at hm
  | cons n rest ih =>
    intro m hm
    by_cases hn : (n.id == id) = true
    · simp only [updateList, if_pos hn] at hm
      rcases List.mem_cons.1 hm with rfl | hm
      · exact ⟨n, by simp, rfl⟩
      · exact ⟨m, by simp [hm], rfl⟩
    · simp only [updateList, if_neg hn] at hm
      rcases List.mem_cons.1 hm with rfl | hm
      · exact ⟨m, by simp, rfl⟩
      · obtain ⟨m', hm', hid⟩ := ih m hm
        exact ⟨m', by simp [hm'], hid⟩

/-- Deletion only removes notes. -/
lemma mem_deleteList_snd (id : Nat) :
    ∀ (ns : List Note), ∀ m ∈ (deleteList id ns).2, m ∈ ns := by
  intro ns
  induction ns with
  | nil => intro m hm; simp [deleteList] at hm
  | cons n rest ih =>
    intro m hm
    by_cases hn : (n.id == id) = true
    · simp only [deleteList, if_pos hn] at hm
      exact List.mem_cons_of_mem n hm
    · simp only [deleteList, if_neg hn] at hm
      rcases List.mem_cons.1 hm with rfl | hm
      · exact List.mem_cons_self m rest
      · exact List.mem_cons_of_mem n (ih m hm)

/-- No operation ever decreases the id counter. -/
lemma applyOp_currentId_le (s : State) (op : Op) :
    s.currentId ≤ (applyOp s op).currentId := by
  cases op with
  | opCreate p now => simp [applyOp, create]
  | opUpdate id u now => simp [applyOp, update]
  | opDelete id => simp [applyOp, deleteOp]
  | opGetAll f => simp [applyOp, getAll]
  | opGetById id => simp [applyOp]
  | opArchive id now =>
      simp only [applyOp, archive]
      cases getById id s <;> simp [update]
  | opUnarchive id now =>
      simp only [applyOp, unarchive]
      cases getById id s <;> simp [update]
  | opMarkAsDone id now =>
      simp only [applyOp, markAsDone]
      cases getById id s <;> simp [update]
  | opMarkAsUndone id now =>
      simp only [applyOp, markAsUndone]
      cases getById id s <;> simp [update]

/-- Every id assigned along a run is at least the counter at its start. -/
lemma assignedIds_lb (ops : List Op) :
    ∀ (s : State), ∀ x ∈ assignedIds s ops, s.currentId ≤ x := by
  induction ops with
  | nil => intro s x h; simp [assignedIds] at h
  | cons op rest ih =>
    intro s x h
    cases op with
    | opCreate p now =>
        simp only [assignedIds, List.mem_cons] at h
        rcases h with rfl | h
        · exact le_refl _
        · exact le_trans (applyOp_currentId_le s _) (ih _ x h)
    | opUpdate id u now =>
        exact le_trans (applyOp_currentId_le s _) (ih _ x h)
    | opDelete id =>
        exact le_trans (applyOp_currentId_le s _) (ih _ x h)
    | opGetAll f =>
        exact le_trans (applyOp_currentId_le s _) (ih _ x h)
    | opGetById id =>
        exact le_trans (applyOp_currentId_le s _) (ih _ x h)
    | opArchive id now =>
        exact le_trans (applyOp_currentId_le s _) (ih _ x h)
    | opUnarchive id now =>
        exact le_trans (applyOp_currentId_le s _) (ih _ x h)
    | opMarkAsDone id now =>
        exact le_trans (applyOp_currentId_le s _) (ih _ x h)
    | opMarkAsUndone id now =>
        exact le_trans (applyOp_currentId_le s _) (ih _ x h)

/-- An update keeps the invariant that every stored id is below the
counter. -/
lemma update_keeps_invariant (id : Nat) (u : UpdatePayload) (now : String) (s : State)
    (h : ∀ n ∈ s.notes, n.id < s.currentId) :
    ∀ n ∈ (update id u now s).2.notes, n.id < (update id u now s).2.currentId := by
  intro n hn
  obtain ⟨m', hm', hid⟩ := mem_updateList_id id u now s.notes n hn
  rw [show (update id u now s).2.currentId = s.currentId from rfl, hid]
  exact h m' hm'

/-- Every operation preserves the id-below-counter invariant. -/
lemma applyOp_invariant (s : State) (op : Op)
    (h : ∀ n ∈ s.notes, n.id < s.currentId) :
    ∀ n ∈ (applyOp s op).notes, n.id < (applyOp s op).currentId := by
  cases op with
  | opCreate p now =>
      intro n hn
      simp only [applyOp, create, List.mem_append, List.mem_singleton] at hn
      rcases hn with hn | rfl
      · exact lt_trans (h n hn) (Nat.lt_succ_self _)
      · exact Nat.lt_succ_self _
  | opUpdate id u now => exact update_keeps_invariant id u now s h
  | opDelete id =>
      intro n hn
      exact h n (mem_deleteList_snd id s.notes n hn)
  | opGetAll f => exact h
  | opGetById id => exact h
  | opArchive id now =>
      simp only [applyOp, archive]
      cases getById id s with
      | none => exact h
      | some _ => exact update_keeps_invariant _ _ _ s h
  | opUnarchive id now =>
      simp only [applyOp, unarchive]
      cases getById id s with
      | none => exact h
      | some _ => exact update_keeps_invariant _ _ _ s h
  | opMarkAsDone id now =>
      simp only [applyOp, markAsDone]
      cases getById id s with
      | none => exact h
      | some _ => exact update_keeps_invariant _ _ _ s h
  | opMarkAsUndone id now =>
      simp only [applyOp, markAsUndone]
      cases getById id s with
      | none => exact h
      | some _ => exact update_keeps_invariant _ _ _ s h

/-- Every state reachable from a state satisfying the id-below-counter
invariant (in particular from `initialState`) satisfies it too, so the
hypothesis of the create theorem below holds of every store state the
process can be in. -/
lemma runOps_invariant (ops : List Op) :
    ∀ (s : State), (∀ n ∈ s.notes, n.id < s.currentId) →
      ∀ n ∈ (runOps s ops).notes, n.id < (runOps s ops).currentId := by
  induction ops with
  | nil => intro s h; exact h
  | cons op rest ih =>
      intro s h
      exact ih (applyOp s op) (applyOp_invariant s op h)

/-! ### Claim theorems -/

/-- C1 counterexample: with a present-but-empty `tags` filter the store
returns and counts a note that does not share any tag with the filter's
(empty) tag sequence, so "a note is returned and counted iff it passes
every filter present" fails as stated. -/
theorem c1_and_semantics_counterexample :
    (getAll { noFilters with tags := some ([] : List String) } sampleState).1.notes = [sampleNote] ∧
    (getAll { noFilters with tags := some ([] : List String) } sampleState).1.total = 1 ∧
    matchesFiltersSpec { noFilters with tags := some ([] : List String) } sampleNote = false := by
  refine ⟨by decide, by decide, by decide⟩

/-- C1 (amended): `list` combines the filters with logical AND — `total`
counts exactly the notes passing every present filter, the returned items
are drawn from those notes, and a stored note is in the filtered
collection iff it passes every present filter — where the `q` filter
passes iff the lowercased query is a substring of the lowercased title or
content, a *non-empty* tags filter passes iff the note shares at least
one tag with it (an empty tags filter, like an absent one, passes every
note), and the boolean filters pass iff the flag matches exactly. -/
theorem c1_and_semantics (f : Filters) (s : State) :
    (getAll f s).1.total = (s.notes.filter fun n => matchesFilters f n).length ∧
    List.Sublist (getAll f s).1.notes (s.notes.filter fun n => matchesFilters f n) ∧
    ∀ n, n ∈ s.notes → (matchesFilters f n = true ↔ n ∈ applyFilters f s.notes) := by
  refine ⟨?_, ?_, ?_⟩
  · show (applyFilters f s.notes).length = _
    rw [applyFilters_eq_filter]
  · show List.Sublist (jsSlice (applyFilters f s.notes) _ _) _
    rw [applyFilters_eq_filter]
    exact (List.take_sublist _ _).trans (List.drop_sublist _ _)
  · intro n hn
    rw [applyFilters_eq_filter]
    simp [List.mem_filter, hn]

/-- C1 witness: the amended theorem at a concrete store and filter set. -/
theorem c1_and_semantics_witness :
    (getAll noFilters sampleState).1.total =
      (sampleState.notes.filter fun n => matchesFilters noFilters n).length ∧
    List.Sublist (getAll noFilters sampleState).1.notes
      (sampleState.notes.filter fun n => matchesFilters noFilters n) ∧
    ∀ n, n ∈ sampleState.notes →
      (matchesFilters noFilters n = true ↔ n ∈ applyFilters noFilters sampleState.notes) :=
  c1_and_semantics noFilters sampleState

/-- C2 counterexample: with `limit = 0` the store still returns the
matching note (`0` is falsy, so `parseInt(filters.limit) || 10` yields the
default 10), refuting "limit 0 returns an empty items array". -/
theorem c2_limit_zero_counterexample :
    (getAll { noFilters with limit := some (.num 0) } sampleState).1.notes = [sampleNote] ∧
    (getAll { noFilters with limit := some (.num 0) } sampleState).1.notes ≠ [] := by
  refine ⟨by decide, by decide⟩

/-- C2 (amended): a `limit` of 0 is swallowed by the `|| 10` fallback and
behaves exactly like an absent limit (the default 10); `total` still
equals the number of notes matching the filters. -/
theorem c2_limit_zero_default (f : Filters) (s : State) :
    getAll { f with limit := some (.num 0) } s = getAll { f with limit := none } s ∧
    (getAll { f with limit := some (.num 0) } s).1.total =
      (s.notes.filter fun n => matchesFilters f n).length := by
  obtain ⟨q, ts, ia, idn, lim, off⟩ := f
  refine ⟨rfl, ?_⟩
  show (applyFilters ⟨q, ts, ia, idn, some (.num 0), off⟩ s.notes).length = _
  rw [applyFilters_eq_filter]
  rfl

/-- C3 counterexample: a negative limit is *not* treated as the default
10 — `-1` is truthy, survives `|| 10`, and `slice(0, -1)` drops the final
element, returning nothing from a one-note store where limit 10 returns
the note. -/
theorem c3_negative_limit_counterexample :
    (getAll { noFilters with limit := some (.num (-1)) } sampleState).1.notes = [] ∧
    (getAll { noFilters with limit := some (.num 10) } sampleState).1.notes = [sampleNote] := by
  refine ⟨by decide, by decide⟩

/-- C3 (amended): a non-numeric (or absent) `limit`/`offset` falls back to
the defaults 10/0 without erroring, but negative values are kept as-is
and flow into `Array.slice`, which counts them from the end of the
filtered list. -/
theorem c3_nonnumeric_defaults (f : Filters) (s : State) :
    getAll { f with limit := some .nan } s = getAll { f with limit := none } s ∧
    getAll { f with offset := some .nan } s = getAll { f with offset := none } s ∧
    (getAll { f with limit := none } s).1.limit = 10 ∧
    (getAll { f with offset := none } s).1.offset = 0 := by
  obtain ⟨q, ts, ia, idn, lim, off⟩ := f
  exact ⟨rfl, rfl, rfl, rfl⟩

/-- C9: a present-but-empty tags filter is skipped by the
`tags && tags.length > 0` guard, so `list` behaves exactly as if the tags
filter were absent. -/
theorem c9_empty_tags_ignored (f : Filters) (s : State) :
    getAll { f with tags := some ([] : List String) } s = getAll { f with tags := none } s := by
  obtain ⟨q, ts, ia, idn, lim, off⟩ := f
  rfl

/-- C10: `getAll` only reads the module state — the note collection
(contents and order) and the id counter are unchanged by a `list` call. -/
theorem c10_getAll_pure (f : Filters) (s : State) :
    (getAll f s).2 = s ∧ (getAll f s).2.notes = s.notes ∧
      (getAll f s).2.currentId = s.currentId :=
  ⟨rfl, rfl, rfl⟩

/-- C4: given a store state whose note ids are all below the counter (an
invariant of every reachable state, by `runOps_invariant`), `create`
always succeeds, assigns the current counter value as the id and
increments the counter, forces both status flags to false, stamps
`createdAt = updatedAt`, appends the note at the end, and `getById` on
the returned id finds exactly the returned note. -/
theorem c4_create_spec (s : State) (p : CreatePayload) (now : String)
    (hids : ∀ n ∈ s.notes, n.id < s.currentId) :
    (create p now s).1.id = s.currentId ∧
    (create p now s).2.currentId = s.currentId + 1 ∧
    (create p now s).1.isArchived = false ∧
    (create p now s).1.isDone = false ∧
    (create p now s).1.createdAt = (create p now s).1.updatedAt ∧
    (create p now s).2.notes = s.notes ++ [(create p now s).1] ∧
    getById (create p now s).1.id (create p now s).2 = some (create p now s).1 := by
  refine ⟨rfl, rfl, rfl, rfl, rfl, rfl, ?_⟩
  show ((s.notes ++ [(create p now s).1]).find? fun note => note.id == s.currentId) = _
  rw [List.find?_append]
  have h : (s.notes.find? fun note => note.id == s.currentId) = none := by
    rw [List.find?_eq_none]
    intro x hx
    simpa using Nat.ne_of_lt (hids x hx)
  rw [h]
  simp [create]

/-- C4 witness: create into the fresh store. -/
theorem c4_create_spec_witness :
    (create ⟨"a", "b", [], none⟩ "t" initialState).1.id = initialState.currentId ∧
    (create ⟨"a", "b", [], none⟩ "t" initialState).2.currentId = initialState.currentId + 1 ∧
    (create ⟨"a", "b", [], none⟩ "t" initialState).1.isArchived = false ∧
    (create ⟨"a", "b", [], none⟩ "t" initialState).1.isDone = false ∧
    (create ⟨"a", "b", [], none⟩ "t" initialState).1.createdAt =
      (create ⟨"a", "b", [], none⟩ "t" initialState).1.updatedAt ∧
    (create ⟨"a", "b", [], none⟩ "t" initialState).2.notes =
      initialState.notes ++ [(create ⟨"a", "b", [], none⟩ "t" initialState).1] ∧
    getById (create ⟨"a", "b", [], none⟩ "t" initialState).1.id
        (create ⟨"a", "b", [], none⟩ "t" initialState).2 =
      some (create ⟨"a", "b", [], none⟩ "t" initialState).1 :=
  c4_create_spec initialState ⟨"a", "b", [], none⟩ "t" (by simp [initialState])

/-- C5: on a hit, `update` rewrites exactly the first note with the given
id in place — payload fields and `updatedAt` change, every other field
and every other note (and the counter) stay put — and returns the merged
note; on a miss it returns `null` and leaves the state unchanged. -/
theorem c5_update_frame (s : State) (id : Nat) (u : UpdatePayload) (now : String) :
    (getById id s = none → update id u now s = (none, s)) ∧
    ∀ old, getById id s = some old →
      (update id u now s).1 = some (mergeNote old u now) ∧
      (update id u now s).2.currentId = s.currentId ∧
      (∃ pre post, s.notes = pre ++ old :: post ∧ (∀ m ∈ pre, m.id ≠ id) ∧
        (update id u now s).2.notes = pre ++ mergeNote old u now :: post) ∧
      updateFrame old u now := by
  obtain ⟨h1, h2⟩ := updateList_spec id u now s.notes
  constructor
  · exact update_not_found id u now s
  · intro old h
    obtain ⟨pre, post, hsplit, hpre, hupd⟩ := h2 old h
    exact ⟨by simp [update, hupd], rfl,
      ⟨pre, post, hsplit, hpre, by simp [update, hupd]⟩, updateFrame_holds old u now⟩

/-- C5 witness: a title-only update of the sample store. -/
theorem c5_update_frame_witness :
    (update 1 { emptyUpdate with title := some "x" } "t2" sampleState).1 =
      some (mergeNote sampleNote { emptyUpdate with title := some "x" } "t2") ∧
    (update 1 { emptyUpdate with title := some "x" } "t2" sampleState).2.currentId =
      sampleState.currentId :=
  ⟨((c5_update_frame sampleState 1 { emptyUpdate with title := some "x" } "t2").2
      sampleNote (by decide)).1,
   ((c5_update_frame sampleState 1 { emptyUpdate with title := some "x" } "t2").2
      sampleNote (by decide)).2.1⟩

/-- C6: along every operation sequence from every state, the ids handed
out by `create` are strictly increasing in order of assignment, hence no
id is ever assigned twice during the process lifetime. -/
theorem c6_ids_strictly_increasing (s : State) (ops : List Op) :
    List.Pairwise (fun a b => a < b) (assignedIds s ops) ∧ (assignedIds s ops).Nodup := by
  have main : ∀ (ops : List Op) (s : State),
      List.Pairwise (fun a b : Nat => a < b) (assignedIds s ops) := by
    intro ops
    induction ops with
    | nil => intro s; simp [assignedIds]
    | cons op rest ih =>
        intro s
        cases op with
        | opCreate p now =>
            simp only [assignedIds]
            refine List.Pairwise.cons ?_ (ih _)
            intro x hx
            have h1 := assignedIds_lb rest (applyOp s (.opCreate p now)) x hx
            have h2 : (applyOp s (.opCreate p now)).currentId = s.currentId + 1 := rfl
            omega
        | opUpdate id u now => simp only [assignedIds]; exact ih _
        | opDelete id => simp only [assignedIds]; exact ih _
        | opGetAll f => simp only [assignedIds]; exact ih _
        | opGetById id => simp only [assignedIds]; exact ih _
        | opArchive id now => simp only [assignedIds]; exact ih _
        | opUnarchive id now => simp only [assignedIds]; exact ih _
        | opMarkAsDone id now => simp only [assignedIds]; exact ih _
        | opMarkAsUndone id now => simp only [assignedIds]; exact ih _
  exact ⟨main ops s, (main ops s).nodup⟩

/-- C7: each status toggle computes exactly the same result-state pair as
the corresponding single-flag `update`; a missing id yields `null` with
the state untouched, and on a hit the returned note differs from the old
one only in the toggled flag and `updatedAt`. -/
theorem c7_toggles_are_updates (s : State) (id : Nat) (now : String) :
    archive id now s = update id { emptyUpdate with isArchived := some true } now s ∧
    unarchive id now s = update id { emptyUpdate with isArchived := some false } now s ∧
    markAsDone id now s = update id { emptyUpdate with isDone := some true } now s ∧
    markAsUndone id now s = update id { emptyUpdate with isDone := some false } now s ∧
    (getById id s = none →
      archive id now s = (none, s) ∧ unarchive id now s = (none, s) ∧
      markAsDone id now s = (none, s) ∧ markAsUndone id now s = (none, s)) ∧
    ∀ old, getById id s = some old →
      (archive id now s).1 =
          some (mergeNote old { emptyUpdate with isArchived := some true } now) ∧
      (mergeNote old { emptyUpdate with isArchived := some true } now).isArchived = true ∧
      (mergeNote old { emptyUpdate with isDone := some true } now).isDone = true ∧
      updateFrame old { emptyUpdate with isArchived := some true } now ∧
      updateFrame old { emptyUpdate with isArchived := some false } now ∧
      updateFrame old { emptyUpdate with isDone := some true } now ∧
      updateFrame old { emptyUpdate with isDone := some false } now := by
  have e1 : archive id now s = update id { emptyUpdate with isArchived := some true } now s := by
    unfold archive; exact guarded_update_eq id _ now s
  have e2 : unarchive id now s = update id { emptyUpdate with isArchived := some false } now s := by
    unfold unarchive; exact guarded_update_eq id _ now s
  have e3 : markAsDone id now s = update id { emptyUpdate with isDone := some true } now s := by
    unfold markAsDone; exact guarded_update_eq id _ now s
  have e4 : markAsUndone id now s = update id { emptyUpdate with isDone := some false } now s := by
    unfold markAsUndone; exact guarded_update_eq id _ now s
  refine ⟨e1, e2, e3, e4, ?_, ?_⟩
  · intro h
    rw [e1, e2, e3, e4]
    exact ⟨update_not_found _ _ _ _ h, update_not_found _ _ _ _ h,
      update_not_found _ _ _ _ h, update_not_found _ _ _ _ h⟩
  · intro old h
    obtain ⟨pre, post, _, _, hupd⟩ :=
      (updateList_spec id { emptyUpdate with isArchived := some true } now s.notes).2 old h
    refine ⟨by rw [e1]; simp [update, hupd], rfl, rfl, ?_, ?_, ?_, ?_⟩ <;>
      exact updateFrame_holds old _ now

/-- C7 witness: archiving the sample note. -/
theorem c7_toggles_are_updates_witness :
    archive 1 "t2" sampleState =
      update 1 { emptyUpdate with isArchived := some true } "t2" sampleState ∧
    (archive 1 "t2" sampleState).1 =
      some (mergeNote sampleNote { emptyUpdate with isArchived := some true } "t2") :=
  ⟨(c7_toggles_are_updates sampleState 1 "t2").1,
   ((c7_toggles_are_updates sampleState 1 "t2").2.2.2.2.2 sampleNote (by decide)).1⟩

/-! ### Validator lemmas -/

lemma mem_strIssues (path : List String) (lo hi : Nat) (v : Json) :
    ∀ i ∈ strIssues path lo hi v, i.path = path := by
  intro i h
  cases v <;> simp only [strIssues] at h
  case str s =>
    rcases List.mem_append.1 h with h1 | h1 <;> split_ifs at h1 <;> simp at h1 <;>
      simp [h1]
  all_goals (simp at h; simp [h])

lemma strIssues_le_one (path : List String) (lo hi : Nat) (v : Json) (_hlo : 0 < lo)
    (hhi : lo ≤ hi) : (strIssues path lo hi v).length ≤ 1 := by
  cases v <;> simp only [strIssues]
  case str s => split_ifs <;> simp <;> omega
  all_goals simp

lemma mem_requiredStrIssues (o : List (String × Json)) (k : String) (lo hi : Nat) :
    ∀ i ∈ requiredStrIssues o k lo hi, i.path = [k] := by
  intro i h
  unfold requiredStrIssues at h
  cases hl : lookupField o k with
  | none => rw [hl] at h; simp at h; simp [h]
  | some v => rw [hl] at h; exact mem_strIssues [k] lo hi v i h

lemma mem_optionalStrIssues (o : List (String × Json)) (k : String) (lo hi : Nat) :
    ∀ i ∈ optionalStrIssues o k lo hi, i.path = [k] := by
  intro i h
  unfold optionalStrIssues at h
  cases hl : lookupField o k with
  | none => rw [hl] at h; simp at h
  | some v => rw [hl] at h; exact mem_strIssues [k] lo hi v i h

lemma mem_tagListIssues (xs : List Json) :
    ∀ (k : Nat), ∀ i ∈ tagListIssues k xs, i.path.head? = some "tags" := by
  induction xs with
  | nil => intro k i h; simp [tagListIssues] at h
  | cons v rest ih =>
      intro k i h
      rcases List.mem_append.1 h with h1 | h1
      · have hp := mem_strIssues ["tags", toString k] 1 20 v i h1
        rw [hp]
        rfl
      · exact ih (k + 1) i h1

lemma mem_tagsIssues (o : List (String × Json)) :
    ∀ i ∈ tagsIssues o, i.path.head? = some "tags" := by
  intro i h
  unfold tagsIssues at h
  cases hl : lookupField o "tags" with
  | none => rw [hl] at h; simp at h
  | some v =>
      rw [hl] at h
      cases v <;> simp only at h
      case arr xs =>
        rcases List.mem_append.1 h with h1 | h1
        · split_ifs at h1 <;> simp at h1
          simp [h1]
        · exact mem_tagListIssues xs 0 i h1
      all_goals (simp at h; simp [h])

lemma mem_dueDateIssues (o : List (String × Json)) :
    ∀ i ∈ dueDateIssues o, i.path = ["dueDate"] := by
  intro i h
  unfold dueDateIssues at h
  cases hl : lookupField o "dueDate" with
  | none => rw [hl] at h; simp at h
  | some v =>
      rw [hl] at h
      cases v <;> simp only at h
      case str s => split_ifs at h <;> simp at h <;> simp [h]
      case null => simp at h
      all_goals (simp at h; simp [h])

lemma mem_boolIssues (o : List (String × Json)) (k : String) :
    ∀ i ∈ boolIssues o k, i.path = [k] := by
  intro i h
  unfold boolIssues at h
  cases hl : lookupField o k with
  | none => rw [hl] at h; simp at h
  | some v =>
      rw [hl] at h
      cases v <;> simp only at h
      case bool b => simp at h
      all_goals (simp at h; simp [h])

/-- A concrete invalid create payload: empty title, non-string content. -/
def badPayload : List (String × Json) := [("title", .str ""), ("content", .num 5)]

/-- C8: whenever a request body violates the active schema, `parse`
fails with exactly the concatenation of the per-field issue lists — every
violation of every failing field is reported (not only the first), each
entry names the path of its field — and a violating body always produces
such a failure.  Scalar fields contribute at most one entry each.  The
embedded validator is a pure function of the body, so no store state is
touched. -/
theorem c8_validation_reports_all (o : List (String × Json)) :
    (∀ l, parseCreateJson (.obj o) = .error l →
      l ≠ [] ∧ l = createIssues o ∧
      (∀ i ∈ requiredStrIssues o "title" 1 100, i ∈ l ∧ i.path = ["title"]) ∧
      (∀ i ∈ requiredStrIssues o "content" 1 1000, i ∈ l ∧ i.path = ["content"]) ∧
      (∀ i ∈ tagsIssues o, i ∈ l ∧ i.path.head? = some "tags") ∧
      (∀ i ∈ dueDateIssues o, i ∈ l ∧ i.path = ["dueDate"])) ∧
    (createIssues o ≠ [] → ∃ l, parseCreateJson (.obj o) = .error l) ∧
    (∀ l, parseUpdateJson (.obj o) = .error l →
      l ≠ [] ∧ l = updateIssues o ∧
      (∀ i ∈ optionalStrIssues o "title" 1 100, i ∈ l ∧ i.path = ["title"]) ∧
      (∀ i ∈ optionalStrIssues o "content" 1 1000, i ∈ l ∧ i.path = ["content"]) ∧
      (∀ i ∈ tagsIssues o, i ∈ l ∧ i.path.head? = some "tags") ∧
      (∀ i ∈ dueDateIssues o, i ∈ l ∧ i.path = ["dueDate"]) ∧
      (∀ i ∈ boolIssues o "isArchived", i ∈ l ∧ i.path = ["isArchived"]) ∧
      (∀ i ∈ boolIssues o "isDone", i ∈ l ∧ i.path = ["isDone"])) ∧
    (updateIssues o ≠ [] → ∃ l, parseUpdateJson (.obj o) = .error l) ∧
    (requiredStrIssues o "title" 1 100).length ≤ 1 ∧
    (requiredStrIssues o "content" 1 1000).length ≤ 1 ∧
    (dueDateIssues o).length ≤ 1 ∧
    (boolIssues o "isArchived").length ≤ 1 ∧
    (boolIssues o "isDone").length ≤ 1 := by
  refine ⟨?_, ?_, ?_, ?_, ?_, ?_, ?_, ?_, ?_⟩
  · intro l h
    simp only [parseCreateJson] at h
    by_cases hc : createIssues o = []
    · rw [if_pos hc] at h; exact absurd h (by simp)
    · rw [if_neg hc] at h
      have hl : createIssues o = l := by injection h
      subst hl
      refine ⟨hc, rfl, ?_, ?_, ?_, ?_⟩
      · intro i hi
        exact ⟨by simp [createIssues, List.mem_append]; tauto,
          mem_requiredStrIssues o "title" 1 100 i hi⟩
      · intro i hi
        exact ⟨by simp [createIssues, List.mem_append]; tauto,
          mem_requiredStrIssues o "content" 1 1000 i hi⟩
      · intro i hi
        exact ⟨by simp [createIssues, List.mem_append]; tauto,
          mem_tagsIssues o i hi⟩
      · intro i hi
        exact ⟨by simp [createIssues, List.mem_append]; tauto,
          mem_dueDateIssues o i hi⟩
  · intro hc
    exact ⟨createIssues o, by simp only [parseCreateJson]; rw [if_neg hc]⟩
  · intro l h
    simp only [parseUpdateJson] at h
    by_cases hc : updateIssues o = []
    · rw [if_pos hc] at h; exact absurd h (by simp)
    · rw [if_neg hc] at h
      have hl : updateIssues o = l := by injection h
      subst hl
      refine ⟨hc, rfl, ?_, ?_, ?_, ?_, ?_, ?_⟩
      · intro i hi
        refine ⟨?_, mem_optionalStrIssues o "title" 1 100 i hi⟩
        simp [updateIssues, List.mem_append]
        tauto
      · intro i hi
        refine ⟨?_, mem_optionalStrIssues o "content" 1 1000 i hi⟩
        simp [updateIssues, List.mem_append]
        tauto
      · intro i hi
        refine ⟨?_, mem_tagsIssues o i hi⟩
        simp [updateIssues, List.mem_append]
        tauto
      · intro i hi
        refine ⟨?_, mem_dueDateIssues o i hi⟩
        simp [updateIssues, List.mem_append]
        tauto
      · intro i hi
        refine ⟨?_, mem_boolIssues o "isArchived" i hi⟩
        simp [updateIssues, List.mem_append]
        tauto
      · intro i hi
        refine ⟨?_, mem_boolIssues o "isDone" i hi⟩
        simp [updateIssues, List.mem_append]
        tauto
  · intro hc
    exact ⟨updateIssues o, by simp only [parseUpdateJson]; rw [if_neg hc]⟩
  · unfold requiredStrIssues
    cases lookupField o "title" with
    | none => simp
    | some v => exact strIssues_le_one ["title"] 1 100 v (by omega) (by omega)
  · unfold requiredStrIssues
    cases lookupField o "content" with
    | none => simp
    | some v => exact strIssues_le_one ["content"] 1 1000 v (by omega) (by omega)
  · unfold dueDateIssues
    cases lookupField o "dueDate" with
    | none => simp
    | some v => cases v <;> simp <;> split_ifs <;> simp
  · unfold boolIssues
    cases lookupField o "isArchived" with
    | none => simp
    | some v => cases v <;> simp
  · unfold boolIssues
    cases lookupField o "isDone" with
    | none => simp
    | some v => cases v <;> simp

/-- C8 witness: a payload with an empty title and a numeric content is
rejected with both violations reported. -/
theorem c8_validation_reports_all_witness :
    ([⟨["title"], "too_small"⟩, ⟨["content"], "invalid_type"⟩] : List Issue) ≠ [] ∧
    ([⟨["title"], "too_small"⟩, ⟨["content"], "invalid_type"⟩] : List Issue) =
      createIssues badPayload :=
  ⟨((c8_validation_reports_all badPayload).1 _ rfl).1,
   ((c8_validation_reports_all badPayload).1 _ rfl).2.1⟩
